import Mathlib

/-!
Verification of the `traductor-web` content-transformation proxy pipeline.

The definitions below are a shallow embedding of the repository's TypeScript
source.  JavaScript strings are modelled as Lean `String`s, and the JS string
operations used by the source (`trim`, `toLowerCase`, `startsWith`, `endsWith`,
`split`, `join`, `replace(/\s+/g, ' ')`) are implemented here on the
underlying character list so that they evaluate inside the kernel.  All string
data in the source is ASCII-relevant (hostnames, schemes, tag names), for
which these models coincide with the JS semantics.
-/

/-! ## JS string primitives -/

/-- JS `String.prototype.trim`: drop leading and trailing whitespace. -/
def trimList (l : List Char) : List Char :=
  ((l.dropWhile Char.isWhitespace).reverse.dropWhile Char.isWhitespace).reverse

/-- JS `value.trim()`. -/
def jsTrim (s : String) : String := String.mk (trimList s.toList)

/-- JS `value.toLowerCase()` (ASCII case folding, as used on hostnames,
schemes and tag names). -/
def jsToLower (s : String) : String := String.mk (s.toList.map Char.toLower)

/-- JS `s.startsWith(p)`. -/
def jsStartsWith (s p : String) : Bool := p.toList.isPrefixOf s.toList

/-- JS `s.endsWith(p)` (used for the `$`-anchored host allow-list regexes). -/
def jsEndsWith (s p : String) : Bool := p.toList.isSuffixOf s.toList

/-- JS `s.split(sep)` for a single-character separator, on character lists:
`"" ↦ [[]]`, `"a,b" ↦ [[a],[b]]`, `"," ↦ [[],[]]`. -/
def splitOnCharList (sep : Char) : List Char → List (List Char)
  | [] => [[]]
  | c :: cs =>
      if c = sep then [] :: splitOnCharList sep cs
      else
        match splitOnCharList sep cs with
        | [] => [[c]]
        | g :: gs => (c :: g) :: gs

/-- JS `srcset.split(',')`. -/
def jsSplitComma (s : String) : List String :=
  (splitOnCharList ',' s.toList).map String.mk

/-- Whitespace-run splitter: groups of non-whitespace characters.  Models JS
`part.split(/\s+/)` at the source's call sites, where `part` is always
already trimmed (so the JS result carries no empty leading/trailing group). -/
def splitWsAux (acc : List Char) : List Char → List (List Char)
  | [] => if acc = [] then [] else [acc.reverse]
  | c :: cs =>
      if c.isWhitespace then
        if acc = [] then splitWsAux [] cs else acc.reverse :: splitWsAux [] cs
      else splitWsAux (c :: acc) cs

/-- JS `part.split(/\s+/)` for trimmed `part`. -/
def jsSplitWs (s : String) : List String := (splitWsAux [] s.toList).map String.mk

/-- JS `list.join(sep)`. -/
def jsJoin (sep : String) : List String → String
  | [] => ""
  | [x] => x
  | x :: xs => x ++ sep ++ jsJoin sep xs

/-- Collapse every whitespace run to a single space:
JS `value.replace(/\s+/g, ' ')` on character lists.  The `prevWs` flag
records whether the previous character belonged to a whitespace run. -/
def collapseWsAux (prevWs : Bool) : List Char → List Char
  | [] => []
  | c :: cs =>
      if c.isWhitespace then
        if prevWs then collapseWsAux true cs else ' ' :: collapseWsAux true cs
      else c :: collapseWsAux false cs

/-- JS `value.replace(/\s+/g, ' ')`. -/
def collapseWs (s : String) : String := String.mk (collapseWsAux false s.toList)

/-- JS `value.slice(0, n)` (character-counted). -/
def jsTake (s : String) (n : Nat) : String := String.mk (s.toList.take n)

/-! ## `src/lib/url.ts`: `toProxyUrl`, `toNavUrl` -/

/-- Uppercase hexadecimal digit of `n < 16`. -/
def hexOfNat (n : Nat) : Char :=
  if n < 10 then Char.ofNat (48 + n) else Char.ofNat (55 + n)

/-- UTF-8 bytes of a character (standard encoding arithmetic). -/
def utf8Bytes (c : Char) : List Nat :=
  let n := c.toNat
  if n < 0x80 then [n]
  else if n < 0x800 then [0xC0 + n / 0x40, 0x80 + n % 0x40]
  else if n < 0x10000 then
    [0xE0 + n / 0x1000, 0x80 + (n / 0x40) % 0x40, 0x80 + n % 0x40]
  else
    [0xF0 + n / 0x40000, 0x80 + (n / 0x1000) % 0x40,
     0x80 + (n / 0x40) % 0x40, 0x80 + n % 0x40]

/-- Characters `encodeURIComponent` leaves unescaped. -/
def isUriUnreserved (c : Char) : Bool :=
  c.isAlpha || c.isDigit ||
    c = '-' || c = '_' || c = '.' || c = '!' || c = '~' || c = '*' ||
    c = '\'' || c = '(' || c = ')'

/-- JS `encodeURIComponent`: unreserved characters kept, everything else
percent-encoded per UTF-8 byte. -/
def encodeURIComponent (s : String) : String :=
  String.mk <| s.toList.foldr
    (fun c acc =>
      (if isUriUnreserved c then [c]
       else (utf8Bytes c).foldr
         (fun b acc2 => '%' :: hexOfNat (b / 16) :: hexOfNat (b % 16) :: acc2) []) ++ acc)
    []

/-- `toProxyUrl` from `src/lib/url.ts`. -/
def toProxyUrl (abs : String) : String := "/api/proxy?url=" ++ encodeURIComponent abs

/-- `toNavUrl` from `src/lib/url.ts`. -/
def toNavUrl (lang abs : String) : String :=
  "/" ++ lang ++ "?url=" ++ encodeURIComponent abs

/-! ## `src/lib/url.ts`: `toAbsoluteUrl`, `rewriteSrcset`

`new URL(trimmed, base)` is the external WHATWG URL constructor; it is
modelled by an injected `resolve : String → String → Option String`
collaborator where `resolve rel base = none` means the constructor throws.
`toAbsoluteUrl` therefore returns in `Except Unit (Option String)`:
`.error ()` models the uncaught exception, `.ok none` models returning
`null`, `.ok (some u)` models returning the string `u`. -/

/-- `hasScheme` from `src/lib/url.ts`: the anchored regex
`^[a-zA-Z][a-zA-Z\d+.-]*:` — an ASCII letter followed by letters, digits,
`+`, `.` or `-` up to a `:`. -/
def schemeTail : List Char → Bool
  | [] => false
  | c :: cs =>
      if c = ':' then true
      else if c.isAlpha || c.isDigit || c = '+' || c = '.' || c = '-' then schemeTail cs
      else false

/-- `hasScheme(value)` from `src/lib/url.ts`. -/
def hasScheme (value : String) : Bool :=
  match value.toList with
  | [] => false
  | c :: cs => c.isAlpha && schemeTail cs

/-- `toAbsoluteUrl(base, value)` from `src/lib/url.ts`. -/
def toAbsoluteUrl (resolve : String → String → Option String)
    (base value : String) : Except Unit (Option String) :=
  let trimmed := jsTrim value
  if trimmed = "" then .ok none
  else
    let normalized := jsToLower trimmed
    if jsStartsWith trimmed "#" || jsStartsWith normalized "mailto:" ||
        jsStartsWith normalized "tel:" || jsStartsWith normalized "javascript:" then
      .ok none
    else if jsStartsWith trimmed "//" then .ok (some ("https:" ++ trimmed))
    else if hasScheme trimmed && !jsStartsWith trimmed "http:" &&
        !jsStartsWith trimmed "https:" then
      .ok none
    else
      match resolve trimmed base with
      | some u => .ok (some u)
      | none => .error ()

/-- The body of `rewriteSrcset`'s `.map`: rewrite one comma-separated srcset
candidate.  JS truthiness of `absolute` (a string): `null` and `''` are
falsy, so both keep the original URL token. -/
def srcsetEntryRewrite (resolve : String → String → Option String)
    (base entry : String) : Except Unit String :=
  let part := jsTrim entry
  if part = "" then .ok part
  else
    let toks := jsSplitWs part
    let urlPart := toks.headD ""
    match toAbsoluteUrl resolve base urlPart with
    | .error () => .error ()
    | .ok absolute =>
        let nextUrl :=
          match absolute with
          | some a => if a = "" then urlPart else toProxyUrl a
          | none => urlPart
        .ok (jsTrim (jsJoin " " (nextUrl :: toks.tail)))

/-- JS `Array.prototype.map` whose body may throw: sequential, the first
exception aborts the whole call. -/
def mapExcept (f : α → Except Unit β) : List α → Except Unit (List β)
  | [] => .ok []
  | x :: xs =>
      match f x with
      | .error e => .error e
      | .ok y => (mapExcept f xs).map (y :: ·)

/-- `rewriteSrcset(base, srcset)` from `src/lib/url.ts`. -/
def rewriteSrcset (resolve : String → String → Option String)
    (base srcset : String) : Except Unit String :=
  (mapExcept (srcsetEntryRewrite resolve base) (jsSplitComma srcset)).map (jsJoin ", ")

/-! ## Host guards

`isBlockedHost` / `isAllowedHost` come from the asset-proxy route
(`src/unnamed/part_003`); `isPrivateHost` from the page-fetch routes
(`src/app/api/translate/route.ts`).  The regex lists are anchored prefix
patterns, modelled as prefix tests on the lowercased hostname. -/

/-- `PRIVATE_HOSTS` (both routes). -/
def PRIVATE_HOSTS : List String := ["localhost", "::1", "[::1]"]

/-- The proxy route's `PRIVATE_IPV4_RANGES`:
`^127\.`, `^10\.`, `^192\.168\.`, `^172\.(1[6-9]|2\d|3[0-1])\.`. -/
def proxyPrivateIpv4 (h : String) : Bool :=
  jsStartsWith h "127." || jsStartsWith h "10." || jsStartsWith h "192.168." ||
    (List.range 16).any (fun i => jsStartsWith h ("172." ++ toString (16 + i) ++ "."))

/-- The translate route's `PRIVATE_IPV4_RANGES`: the proxy route's list plus
`^169\.254\.` and `^0\.`. -/
def translatePrivateIpv4 (h : String) : Bool :=
  proxyPrivateIpv4 h || jsStartsWith h "169.254." || jsStartsWith h "0."

/-- `normalized.replace(/[[\]]/g, '').replace(/:/g, '')`. -/
def stripBracketsColons (s : String) : String :=
  String.mk (s.toList.filter (fun c => !(c = '[' || c = ']' || c = ':')))

/-- `PRIVATE_IPV6_PATTERNS`: `^fc`, `^fd`, `^fe[89ab]` (case-insensitive;
applied to an already-lowercased string). -/
def privateIpv6Match (compact : String) : Bool :=
  jsStartsWith compact "fc" || jsStartsWith compact "fd" ||
    jsStartsWith compact "fe8" || jsStartsWith compact "fe9" ||
    jsStartsWith compact "fea" || jsStartsWith compact "feb"

/-- `isBlockedHost` from `src/unnamed/part_003` (asset-proxy route). -/
def isBlockedHost (hostname : String) : Bool :=
  let normalized := jsToLower hostname
  if PRIVATE_HOSTS.contains normalized then true
  else if proxyPrivateIpv4 normalized then true
  else privateIpv6Match (stripBracketsColons normalized)

/-- `isPrivateHost` from `src/app/api/translate/route.ts` (both page-fetch
route variants define it identically). -/
def isPrivateHost (hostname : String) : Bool :=
  let normalized := jsToLower hostname
  if PRIVATE_HOSTS.contains normalized then true
  else translatePrivateIpv4 normalized

/-- `isAllowedHost` from `src/unnamed/part_003`: exact `ALLOWED_HOSTS` plus
the `$`-anchored `ALLOWED_HOST_PATTERNS` suffix regexes. -/
def isAllowedHost (hostname : String) : Bool :=
  let normalized := jsToLower hostname
  if normalized = "example.com" then true
  else
    jsEndsWith normalized ".wikipedia.org" || jsEndsWith normalized ".wikimedia.org" ||
      jsEndsWith normalized ".bbc.com"

/-- The asset-proxy `GET` guard chain (`src/unnamed/part_003`, lines 86–96):
given the parsed URL's protocol and hostname, the early-rejection response
(`some (status, body)`) or `none` when the request proceeds to the upstream
fetch. -/
def proxyGuard (protocol hostname : String) : Option (Nat × String) :=
  if !(protocol = "http:" || protocol = "https:") then
    some (400, "Solo se permiten URLs http/https.")
  else if isBlockedHost hostname then
    some (403, "Host bloqueado por seguridad.")
  else if !isAllowedHost hostname then
    some (403, "Host no permitido. /api/proxy solo permite hosts en allowlist.")
  else none

/-! ## `fetchHtmlWithLimits` (`src/app/api/translate/route.ts`, lines 225–267)

The HTTP response is modelled with its `ok` flag, upstream status, the
`Content-Length` header (which the function never reads — the ceiling is
enforced on the streamed chunks only), and the chunk stream delivered by
`response.body.getReader()` (`none` models a null `body`).  Chunks are byte
lists; `Buffer.concat` / `TextDecoder` yield the concatenated bytes. -/

structure HttpResponse where
  ok : Bool
  status : Nat
  contentLength : Option Nat
  chunks : Option (List (List Nat))

/-- `MAX_BYTES = 2 * 1024 * 1024`. -/
def MAX_BYTES : Nat := 2 * 1024 * 1024

/-- The `while (true)` reader loop: add each chunk's `byteLength` to the
running `total`, throw `'El HTML excede 2MB.'` the moment `total` exceeds
the ceiling, otherwise collect the chunk. -/
def readChunksLoop (total : Nat) : List (List Nat) → Except String (List Nat)
  | [] => .ok []
  | c :: rest =>
      let t := total + c.length
      if MAX_BYTES < t then .error "El HTML excede 2MB."
      else (readChunksLoop t rest).map (c ++ ·)

/-- `fetchHtmlWithLimits` body processing (after the fetch resolves). -/
def fetchHtmlWithLimits (r : HttpResponse) : Except String (List Nat) :=
  if !r.ok then .error ("No se pudo cargar la URL: " ++ toString r.status)
  else
    match r.chunks with
    | none => .error "Respuesta vacía"
    | some cs => readChunksLoop 0 cs

/-- The page-fetch `GET` handler's `try/catch` around `fetchHtmlWithLimits`:
any thrown error message becomes a 502 response with that message as body. -/
def fetchHtmlStep (r : HttpResponse) : Except (Nat × String) (List Nat) :=
  match fetchHtmlWithLimits r with
  | .error msg => .error (502, msg)
  | .ok bytes => .ok bytes

/-! ## DeepL translation (`src/app/api/translate/route.ts`, lines 51–140)

The DeepL HTTP response is modelled by its `ok` flag, status, the parsed
JSON payload's `translations` array (each entry's optional `text` field) and
optional `message`.  `process.env.DEEPL_AUTH_KEY` is an `Option String`.
Thrown `Error(msg)` values are `Except.error msg`. -/

structure DeepLResponse where
  ok : Bool
  status : Nat
  translations : Option (List (Option String))
  message : Option String

/-- The non-2xx error detail: `` `DeepL devolvió ${status}` `` plus
`: message` when the payload carries a message. -/
def deeplErrorDetail (r : DeepLResponse) : String :=
  let base := "DeepL devolvió " ++ toString r.status
  match r.message with
  | some m => base ++ ": " ++ m
  | none => base

/-- `translateText` (single-text call): takes `translations?.[0]?.text` and
throws when it is absent or empty (JS falsiness of `undefined` and `''`). -/
def translateText (authKey : Option String) (r : DeepLResponse) (_text : String) :
    Except String String :=
  match authKey with
  | none => .error "DEEPL_AUTH_KEY no está configurada en el entorno."
  | some _ =>
      if !r.ok then .error (deeplErrorDetail r)
      else
        match r.translations with
        | some (some t :: _) =>
            if t = "" then .error "DeepL devolvió una respuesta sin texto traducido."
            else .ok t
        | _ => .error "DeepL devolvió una respuesta sin texto traducido."

/-- `translateBatch`: a single-element batch delegates to `translateText`;
otherwise `translations?.map(e => e.text ?? '')` must exist and have exactly
one entry per input, else
`'DeepL devolvió una cantidad inesperada de traducciones.'` is thrown. -/
def translateBatch (authKey : Option String) (r : DeepLResponse) (texts : List String) :
    Except String (List String) :=
  match texts with
  | [t] => (translateText authKey r t).map ([·])
  | _ =>
      match authKey with
      | none => .error "DEEPL_AUTH_KEY no está configurada en el entorno."
      | some _ =>
          if !r.ok then .error (deeplErrorDetail r)
          else
            match r.translations with
            | none => .error "DeepL devolvió una cantidad inesperada de traducciones."
            | some entries =>
                let translated := entries.map (fun e => e.getD "")
                if translated.length ≠ texts.length then
                  .error "DeepL devolvió una cantidad inesperada de traducciones."
                else .ok translated

/-- One collected text-node candidate of `translateBodyTextNodes` /
`translateTextNodes`: the node's current `data` together with the
`splitOuterWhitespace` decomposition `data = leading ++ core ++ trailing`. -/
structure Candidate where
  leading : String
  core : String
  trailing : String

/-- A candidate node's current text content. -/
def Candidate.data (c : Candidate) : String := c.leading ++ c.core ++ c.trailing

/-- The write-back `batch.forEach`: node `i` receives
`leading ++ translated.trim() ++ trailing` unless `translatedBatch[i]?.trim()`
is falsy (absent or empty), in which case it is left untouched. -/
def writeBackBatch (batch : List Candidate) (translatedBatch : List String) :
    List Candidate :=
  batch.enum.map fun (i, c) =>
    match translatedBatch[i]? with
    | none => c
    | some t =>
        let translated := jsTrim t
        if translated = "" then c
        else { c with core := translated, leading := c.leading, trailing := c.trailing }

/-- One iteration of the batching loop in `translateBodyTextNodes`: the
batch is sent to `translateBatch`; on a thrown error the write-back
`forEach` never runs (the exception propagates before it), so every node
keeps its current data. -/
def batchStep (authKey : Option String) (r : DeepLResponse) (batch : List Candidate) :
    List Candidate × Option String :=
  match translateBatch authKey r (batch.map (·.core)) with
  | .error e => (batch, some e)
  | .ok ts => (writeBackBatch batch ts, none)

/-! ## DOM model

The cheerio/parse5 document is modelled as the tagged node tree recommended
by the design notes: elements carry a tag, an attribute list and children;
text and comment nodes carry raw data.  Cheerio collection operations
(`remove`, `replaceWith(contents)`, attribute edits) are modelled as
recursive tree transformations: the `$('*')` snapshots iterate parents
before their (still-live) children, so a full pass over the snapshot
performs exactly the recursive transformation written here. -/

inductive DomNode where
  | text (data : String)
  | comment (data : String)
  | elem (tag : String) (attribs : List (String × String)) (children : List DomNode)

/-- Children accessor (`[]` for non-elements, like a missing `children`). -/
def DomNode.childrenD : DomNode → List DomNode
  | .elem _ _ cs => cs
  | _ => []

/-- Attributes accessor. -/
def DomNode.attribsD : DomNode → List (String × String)
  | .elem _ a _ => a
  | _ => []

/-! ## `sanitizeReaderHtml` (`src/unnamed/part_004`, lines 339–375) -/

/-- The removal selector
`'script,style,iframe,object,embed,form,button,input,textarea,select,link,meta,base'`. -/
def dangerousTags : List String :=
  ["script", "style", "iframe", "object", "embed", "form", "button", "input",
   "textarea", "select", "link", "meta", "base"]

/-- `ALLOWED_READER_TAGS`. -/
def ALLOWED_READER_TAGS : List String :=
  ["a", "abbr", "article", "aside", "b", "blockquote", "br", "caption", "cite",
   "code", "dd", "del", "details", "dfn", "div", "dl", "dt", "em", "figcaption",
   "figure", "h1", "h2", "h3", "h4", "h5", "h6", "hr", "i", "img", "li", "main",
   "mark", "ol", "p", "picture", "pre", "q", "s", "section", "small", "source",
   "span", "strong", "sub", "summary", "sup", "table", "tbody", "td", "tfoot",
   "th", "thead", "time", "tr", "u", "ul"]

/-- `ALLOWED_READER_ATTRS`. -/
def ALLOWED_READER_ATTRS : List String :=
  ["alt", "cite", "colspan", "datetime", "decoding", "height", "href", "loading",
   "rowspan", "sizes", "src", "srcset", "scope", "target", "title", "width", "rel"]

/-- First sanitizer pass: `$('script,style,…').remove()` — drop every
element (at any depth) whose tag matches the removal selector
(HTML selector tag matching is case-insensitive). -/
def removeDangerousList : List DomNode → List DomNode
  | [] => []
  | .elem t a cs :: rest =>
      if dangerousTags.contains (jsToLower t) then removeDangerousList rest
      else .elem t a (removeDangerousList cs) :: removeDangerousList rest
  | .text s :: rest => .text s :: removeDangerousList rest
  | .comment s :: rest => .comment s :: removeDangerousList rest

/-- Second sanitizer pass: for every element in the `$('*')` snapshot whose
lowercased tag is non-empty and not allow-listed,
`$(node).replaceWith($(node).contents())` — the element is replaced by its
children (which the snapshot then also visits). -/
def unwrapDisallowedList : List DomNode → List DomNode
  | [] => []
  | .elem t a cs :: rest =>
      if jsToLower t ≠ "" && !ALLOWED_READER_TAGS.contains (jsToLower t) then
        unwrapDisallowedList cs ++ unwrapDisallowedList rest
      else .elem t a (unwrapDisallowedList cs) :: unwrapDisallowedList rest
  | .text s :: rest => .text s :: unwrapDisallowedList rest
  | .comment s :: rest => .comment s :: unwrapDisallowedList rest

/-- The per-attribute filter of the third pass, in the source's order:
`on*`-named attributes are dropped; attributes outside
`ALLOWED_READER_ATTRS` are dropped; `href`/`src`/`xlink:href` attributes
whose trimmed value starts (case-insensitively) with `javascript:` are
dropped.  Attribute names are compared lowercased. -/
def keepReaderAttr (name value : String) : Bool :=
  let na := jsToLower name
  if jsStartsWith na "on" then false
  else if !ALLOWED_READER_ATTRS.contains na then false
  else if (na = "href" || na = "src" || na = "xlink:href") &&
      jsStartsWith (jsToLower (jsTrim value)) "javascript:" then false
  else true

/-- Third sanitizer pass: strip the disallowed attributes of every element. -/
def stripAttrsList : List DomNode → List DomNode
  | [] => []
  | .elem t a cs :: rest =>
      .elem t (a.filter fun p => keepReaderAttr p.1 p.2) (stripAttrsList cs) ::
        stripAttrsList rest
  | .text s :: rest => .text s :: stripAttrsList rest
  | .comment s :: rest => .comment s :: stripAttrsList rest

/-- `sanitizeReaderHtml` on the parsed fragment (the `<article>` wrapper's
children): the three passes in source order. -/
def sanitizeReaderHtml (fragment : List DomNode) : List DomNode :=
  stripAttrsList (unwrapDisallowedList (removeDangerousList fragment))

/-- Output predicate over a fragment: every element of the tree (at any
depth) has an allow-listed tag (never a removal-selector tag) and only
attributes passing the per-attribute filter (no `on*` name, no name outside
the allow-list, no `javascript:`-valued `href`/`src`/`xlink:href`). -/
def fragmentSanitized : List DomNode → Bool
  | [] => true
  | .elem t a cs :: rest =>
      !dangerousTags.contains (jsToLower t) &&
        (jsToLower t = "" || ALLOWED_READER_TAGS.contains (jsToLower t)) &&
        a.all (fun p => keepReaderAttr p.1 p.2) &&
        fragmentSanitized cs && fragmentSanitized rest
  | .text _ :: rest => fragmentSanitized rest
  | .comment _ :: rest => fragmentSanitized rest

/-! ## `extractReaderDocument` (`src/unnamed/part_004`, lines 407–468)

Cheerio selector queries are modelled as pre-order collections over the
tree.  Tag selectors compare the lowercased tag name; `[role="main"]`,
class and id selectors inspect the attribute list.  `element.html()` is
modelled by a plain serializer (`htmlOfList`): entity escaping and
void-element forms are irrelevant to the extraction logic, which only
compares the serialized string against `''` and wraps synthesized
paragraph markup. -/

/-- Concatenated text of all text-node descendants (cheerio `.text()`). -/
def textOfList : List DomNode → String
  | [] => ""
  | .elem _ _ cs :: rest => textOfList cs ++ textOfList rest
  | .text s :: rest => s ++ textOfList rest
  | .comment _ :: rest => textOfList rest

/-- `.text()` of a single node. -/
def textOfNode (n : DomNode) : String := textOfList [n]

/-- Attribute serialization for `htmlOfList`. -/
def attrsHtml (a : List (String × String)) : String :=
  a.foldl (fun acc p => acc ++ " " ++ p.1 ++ "=\x22" ++ p.2 ++ "\x22") ""

/-- Inner-HTML serializer (models cheerio `.html()` up to entity escaping
and void-element forms, which the extractor never depends on). -/
def htmlOfList : List DomNode → String
  | [] => ""
  | .elem t a cs :: rest =>
      "<" ++ t ++ attrsHtml a ++ ">" ++ htmlOfList cs ++ "</" ++ t ++ ">" ++
        htmlOfList rest
  | .text s :: rest => s ++ htmlOfList rest
  | .comment s :: rest => "<!--" ++ s ++ "-->" ++ htmlOfList rest

/-- Pre-order collection of the elements matching `p` that have a strict
ancestor matching `ancP` (tracked by `inAnc`); with `inAnc = true` it
collects every element matching `p`. -/
def collectDesc (ancP p : DomNode → Bool) (inAnc : Bool) : List DomNode → List DomNode
  | [] => []
  | .elem t a cs :: rest =>
      (if inAnc && p (.elem t a cs) then [.elem t a cs] else []) ++
        collectDesc ancP p (inAnc || ancP (.elem t a cs)) cs ++
        collectDesc ancP p inAnc rest
  | .text _ :: rest => collectDesc ancP p inAnc rest
  | .comment _ :: rest => collectDesc ancP p inAnc rest

/-- All elements matching `p`, in document order (`$(sel)`). -/
def findAll (p : DomNode → Bool) (ns : List DomNode) : List DomNode :=
  collectDesc (fun _ => false) p true ns

/-- Tag selector (tag names compare case-insensitively). -/
def tagIs (name : String) : DomNode → Bool
  | .elem t _ _ => jsToLower t = name
  | _ => false

/-- `[role="main"]` attribute selector. -/
def hasRoleMain : DomNode → Bool
  | .elem _ a _ => a.any fun p => jsToLower p.1 = "role" && p.2 = "main"
  | _ => false

/-- `.cls` class selector: the `class` attribute's whitespace-separated
token list contains `cls`. -/
def hasClass (cls : String) : DomNode → Bool
  | .elem _ a _ =>
      a.any fun p => jsToLower p.1 = "class" && (jsSplitWs (jsTrim p.2)).contains cls
  | _ => false

/-- `#content` id selector. -/
def hasId (idv : String) : DomNode → Bool
  | .elem _ a _ => a.any fun p => jsToLower p.1 = "id" && p.2 = idv
  | _ => false

/-- The `candidateSelectors` matches, concatenated in the source's selector
order (matches of each selector in document order). -/
def readerCandidateMatches (doc : List DomNode) : List DomNode :=
  findAll (tagIs "article") doc ++
    collectDesc (tagIs "main") (tagIs "article") false doc ++
    collectDesc hasRoleMain (tagIs "article") false doc ++
    findAll (tagIs "main") doc ++
    findAll hasRoleMain doc ++
    findAll (hasClass "post-content") doc ++
    findAll (hasClass "entry-content") doc ++
    findAll (hasClass "article-content") doc ++
    findAll (hasId "content") doc

/-- The candidate loop body: keep the candidate with the greatest
whitespace-collapsed visible-text length (`textLength > bestScore`),
remembering its inner HTML. -/
def pickBest : List DomNode → String × Nat → String × Nat
  | [], acc => acc
  | el :: rest, (bh, bs) =>
      let tl := (jsTrim (collapseWs (textOfNode el))).length
      if bs < tl then pickBest rest (htmlOfList el.childrenD, tl)
      else pickBest rest (bh, bs)

/-- `bestHtml` after the candidate-selector loop. -/
def readerBestFromSelectors (doc : List DomNode) : String :=
  (pickBest (readerCandidateMatches doc) ("", 0)).1

/-- Generic recursive removal of every element whose lowercased tag is in
`tags` (cheerio `.find(sel).remove()`). -/
def removeTagsList (tags : List String) : List DomNode → List DomNode
  | [] => []
  | .elem t a cs :: rest =>
      if tags.contains (jsToLower t) then removeTagsList tags rest
      else .elem t a (removeTagsList tags cs) :: removeTagsList tags rest
  | .text s :: rest => .text s :: removeTagsList tags rest
  | .comment s :: rest => .comment s :: removeTagsList tags rest

/-- `body.find('nav,aside,footer,header,script,style,noscript,form').remove()`. -/
def bodyCleanupTags : List String :=
  ["nav", "aside", "footer", "header", "script", "style", "noscript", "form"]

/-- The document's `body` elements (`$('body')`). -/
def bodyElems (doc : List DomNode) : List DomNode := findAll (tagIs "body") doc

/-- The cleaned clone's content: the body children with
navigation/sidebar/footer/script-bearing subtrees removed. -/
def cleanedBodyContent (doc : List DomNode) : List DomNode :=
  removeTagsList bodyCleanupTags
    ((bodyElems doc).foldr (fun b acc => b.childrenD ++ acc) [])

/-- The paragraph fallback: up to 50 non-empty collapsed paragraph texts of
the cleaned body. -/
def readerParagraphs (doc : List DomNode) : List String :=
  (((findAll (tagIs "p") (cleanedBodyContent doc)).map
      (fun p => jsTrim (collapseWs (textOfNode p)))).filter (· ≠ "")).take 50

/-- `$('body').text()` of the original document. -/
def bodiesText (doc : List DomNode) : String := textOfList (bodyElems doc)

/-- The whole-body fallback text: first 15,000 characters of the collapsed,
trimmed body text, or the literal placeholder if that is empty. -/
def readerFallbackBodyText (doc : List DomNode) : String :=
  let bodyText := jsTake (jsTrim (collapseWs (bodiesText doc))) 15000
  if bodyText = "" then "No se pudo extraer contenido legible." else bodyText

/-- `ReaderDocument` (`src/unnamed/part_004`). -/
structure ReaderDocument where
  title : String
  contentHtml : String

/-- `$('title').first().text()`. -/
def titleText (doc : List DomNode) : String :=
  match findAll (tagIs "title") doc with
  | [] => ""
  | el :: _ => textOfNode el

/-- `extractReaderDocument(sourceHtml, originUrl)` on the parsed document
(`originUrl.hostname` is passed in directly). -/
def extractReaderDocument (doc : List DomNode) (hostname : String) : ReaderDocument :=
  let fallbackTitle := if jsTrim (titleText doc) = "" then hostname else jsTrim (titleText doc)
  let bh1 := readerBestFromSelectors doc
  let bh2 :=
    if bh1 = "" then
      if (readerParagraphs doc).length > 0 then
        jsJoin "" ((readerParagraphs doc).map fun p => "<p>" ++ p ++ "</p>")
      else ""
    else bh1
  let bh3 := if bh2 = "" then "<p>" ++ readerFallbackBodyText doc ++ "</p>" else bh2
  { title := fallbackTitle, contentHtml := bh3 }

/-! ## Claim C1 -/

/-- **C1** (counterexample).  The claim states that *both* host-guard
predicates return `true` for every hostname in
{localhost, 127.0.0.1, 10.0.0.5, 192.168.1.1, 169.254.1.1, ::1, fd00::1}.
It is false at two of those inputs: the asset-proxy `isBlockedHost` does not
block `169.254.1.1` (its IPv4 range list omits `^169\.254\.` and `^0\.`),
and the page-fetch `isPrivateHost` does not block `fd00::1` (it has no IPv6
prefix check at all). -/
theorem C1_counterexample :
    isBlockedHost "169.254.1.1" = false ∧ isPrivateHost "fd00::1" = false := by
  decide

/-- **C1** (amended).  Per-function behaviour on the claim's hostname table:
`isBlockedHost` blocks localhost, 127.0.0.1, 10.0.0.5, 192.168.1.1, ::1 and
fd00::1 but not 169.254.1.1; `isPrivateHost` blocks localhost, 127.0.0.1,
10.0.0.5, 192.168.1.1, 169.254.1.1 and ::1 but not fd00::1; both return
false for example.com and en.wikipedia.org. -/
theorem C1_amended_host_guard_table :
    (isBlockedHost "localhost" = true ∧ isBlockedHost "127.0.0.1" = true ∧
      isBlockedHost "10.0.0.5" = true ∧ isBlockedHost "192.168.1.1" = true ∧
      isBlockedHost "::1" = true ∧ isBlockedHost "fd00::1" = true ∧
      isBlockedHost "169.254.1.1" = false ∧
      isBlockedHost "example.com" = false ∧
      isBlockedHost "en.wikipedia.org" = false) ∧
    (isPrivateHost "localhost" = true ∧ isPrivateHost "127.0.0.1" = true ∧
      isPrivateHost "10.0.0.5" = true ∧ isPrivateHost "192.168.1.1" = true ∧
      isPrivateHost "169.254.1.1" = true ∧ isPrivateHost "::1" = true ∧
      isPrivateHost "fd00::1" = false ∧
      isPrivateHost "example.com" = false ∧
      isPrivateHost "en.wikipedia.org" = false) := by
  decide

/-! ## Claim C10 -/

/-- **C10**.  The asset-proxy host guard blocks every hostname whose
bracket/colon-stripped lowercasing begins with `fc`, `fd`, `fe8`, `fe9`,
`fea` or `feb` — including ordinary public DNS names such as
`fcbarcelona.com`, which the proxy `GET` rejects with 403
`'Host bloqueado por seguridad.'`. -/
theorem C10_ipv6_prefix_blocks_public_names :
    (∀ hostname : String,
      privateIpv6Match (stripBracketsColons (jsToLower hostname)) = true →
      isBlockedHost hostname = true) ∧
    isBlockedHost "fcbarcelona.com" = true ∧
    proxyGuard "https:" "fcbarcelona.com" =
      some (403, "Host bloqueado por seguridad.") := by
  refine ⟨?_, by decide, by decide⟩
  intro hostname hm
  simp [isBlockedHost, hm]

/-- **C10** (witness): the hypothesis of the universally quantified part is
discharged at the concrete hostname `fe80router.example`. -/
theorem C10_witness : isBlockedHost "fe80router.example" = true :=
  C10_ipv6_prefix_blocks_public_names.1 "fe80router.example" (by decide)

/-! ## Claim C2 -/

/-- Total byte length of a chunk stream. -/
def sumChunkBytes (chunks : List (List Nat)) : Nat :=
  chunks.foldr (fun c acc => c.length + acc) 0

/-- The reader loop throws the 2MB error as soon as the running total
exceeds the ceiling, regardless of any later chunks. -/
theorem readChunksLoop_overflow (pre : List (List Nat)) :
    ∀ (rest : List (List Nat)) (total : Nat), total ≤ MAX_BYTES →
      MAX_BYTES < total + sumChunkBytes pre →
      readChunksLoop total (pre ++ rest) = .error "El HTML excede 2MB." := by
  induction pre with
  | nil =>
      intro rest total h1 h2
      rw [show sumChunkBytes [] = 0 from rfl] at h2
      omega
  | cons c pre ih =>
      intro rest total h1 h2
      rw [show sumChunkBytes (c :: pre) = c.length + sumChunkBytes pre from rfl] at h2
      simp only [List.cons_append, readChunksLoop]
      by_cases hc : MAX_BYTES < total + c.length
      · simp [hc]
      · rw [if_neg hc]
        simp only [List.append_eq]
        rw [ih rest (total + c.length) (by omega) (by omega)]
        rfl

/-- **C2**.  For every HTML page fetch whose body streams more than the
2 MiB ceiling in total — whatever `Content-Length` the response declares,
including a value under the limit — `fetchHtmlWithLimits` fails with
`'El HTML excede 2MB.'` as soon as the running counter exceeds the ceiling
(any chunks after the overflowing prefix are irrelevant), and the page
handler reports the failure to the caller as a 502 carrying that message. -/
theorem C2_stream_limit_enforced (r : HttpResponse) (pre post : List (List Nat))
    (hok : r.ok = true) (hch : r.chunks = some (pre ++ post))
    (hbig : MAX_BYTES < sumChunkBytes pre) :
    fetchHtmlWithLimits r = .error "El HTML excede 2MB." ∧
    fetchHtmlStep r = .error (502, "El HTML excede 2MB.") := by
  have hmain : fetchHtmlWithLimits r = .error "El HTML excede 2MB." := by
    unfold fetchHtmlWithLimits
    rw [hok, hch]
    simpa using readChunksLoop_overflow pre post 0 (Nat.zero_le _) (by simpa using hbig)
  refine ⟨hmain, ?_⟩
  unfold fetchHtmlStep
  rw [hmain]

/-- **C2** (witness): a response declaring `Content-Length: 500000` (under
the ceiling) whose body streams `MAX_BYTES + 1` bytes. -/
theorem C2_witness :
    fetchHtmlWithLimits
        { ok := true, status := 200, contentLength := some 500000,
          chunks := some [List.replicate (MAX_BYTES + 1) 0] } =
      .error "El HTML excede 2MB." ∧
    fetchHtmlStep
        { ok := true, status := 200, contentLength := some 500000,
          chunks := some [List.replicate (MAX_BYTES + 1) 0] } =
      .error (502, "El HTML excede 2MB.") :=
  C2_stream_limit_enforced _ [List.replicate (MAX_BYTES + 1) 0] [] rfl
    (by rw [List.append_nil])
    (by rw [show ∀ x : List Nat, sumChunkBytes [x] = x.length + 0 from fun _ => rfl,
        List.length_replicate]; omega)

/-! ## Claim C3 -/

/-- **C3** (counterexample).  The claim states that *every* batch whose
service response carries a number of translations different from the number
of input texts raises a translation error.  A single-text batch takes the
`translateText` path, which reads only `translations[0]` and never checks
the count: a response with two translations for one input succeeds, and the
node is mutated. -/
theorem C3_counterexample :
    translateBatch (some "key")
        { ok := true, status := 200,
          translations := some [some "hello", some "extra"], message := none }
        ["hola"] = .ok ["hello"] ∧
    (batchStep (some "key")
        { ok := true, status := 200,
          translations := some [some "hello", some "extra"], message := none }
        [{ leading := "", core := "hola", trailing := "" }]).1 =
      [{ leading := "", core := "hello", trailing := "" }] := by
  exact ⟨rfl, rfl⟩

/-- **C3** (amended).  For every translation batch of **two or more** texts
whose service response carries a number of translations different from the
number of input texts (or no `translations` array at all), `translateBatch`
raises `'DeepL devolvió una cantidad inesperada de traducciones.'` and no
text node belonging to that batch is mutated: the batching step returns
every node with its original data.  (Single-text batches go through the
single-translation path, which ignores the count — see the
counterexample.) -/
theorem C3_amended_batch_mismatch (key : String) (r : DeepLResponse)
    (batch : List Candidate)
    (hlen : 2 ≤ batch.length) (hok : r.ok = true)
    (hmm : ∀ ts, r.translations = some ts → ts.length ≠ batch.length) :
    batchStep (some key) r batch =
      (batch, some "DeepL devolvió una cantidad inesperada de traducciones.") := by
  rcases batch with _ | ⟨c1, _ | ⟨c2, rest⟩⟩
  · simp at hlen
  · simp at hlen
  · unfold batchStep
    have herr : translateBatch (some key) r ((c1 :: c2 :: rest).map (·.core)) =
        .error "DeepL devolvió una cantidad inesperada de traducciones." := by
      unfold translateBatch
      simp only [List.map_cons]
      rw [hok]
      cases htr : r.translations with
      | none => rfl
      | some entries =>
          have hne := hmm entries htr
          simp only [Bool.not_true, Bool.false_eq_true, if_false, List.length_map,
            List.length_cons]
          rw [if_pos]
          simp only [List.length_cons, List.length_map] at hne ⊢
          simpa using hne
    rw [herr]

/-- **C3** (witness): a two-text batch answered with a single translation
errors and leaves both nodes untouched. -/
theorem C3_amended_witness :
    batchStep (some "key")
        { ok := true, status := 200, translations := some [some "x"], message := none }
        [{ leading := "", core := "a", trailing := "" },
         { leading := "", core := "b", trailing := "" }] =
      ([{ leading := "", core := "a", trailing := "" },
        { leading := "", core := "b", trailing := "" }],
       some "DeepL devolvió una cantidad inesperada de traducciones.") :=
  C3_amended_batch_mismatch "key" _ _ (by decide) rfl
    (by intro ts hts; simp only [Option.some.injEq] at hts; subst hts; decide)

/-! ## Claim C9 -/

/-- **C9**.  `toAbsoluteUrl` is not total: a value starting with `//` is
returned as `'https:' + value` without any validation — for `'//not a url'`
it yields the non-URL string `'https://not a url'` without ever consulting
the URL constructor (the result holds for *every* `resolve`) — and an
`http(s)`-prefixed value the URL constructor cannot parse (such as
`'http://'`) makes the function throw instead of returning null. -/
theorem C9_toAbsoluteUrl_partiality (resolve : String → String → Option String)
    (base : String) :
    toAbsoluteUrl resolve base "//not a url" = .ok (some "https://not a url") ∧
    (resolve "http://" base = none →
      toAbsoluteUrl resolve base "http://" = .error ()) := by
  constructor
  · rfl
  · intro h
    have hred : toAbsoluteUrl resolve base "http://" =
        match resolve "http://" base with
        | some u => .ok (some u)
        | none => .error () := rfl
    rw [hred, h]

/-- **C9** (witness): with a URL constructor that fails on `'http://'`, the
call throws; the `//` case never reaches the constructor at all. -/
theorem C9_witness :
    toAbsoluteUrl (fun _ _ => none) "https://example.com/" "//not a url" =
      .ok (some "https://not a url") ∧
    toAbsoluteUrl (fun _ _ => none) "https://example.com/" "http://" = .error () :=
  ⟨(C9_toAbsoluteUrl_partiality (fun _ _ => none) "https://example.com/").1,
   (C9_toAbsoluteUrl_partiality (fun _ _ => none) "https://example.com/").2 rfl⟩

/-! ## Claims C4 and C8: sanitizer lemmas -/

/-- Tag-level output predicate of the unwrap pass: every element (at any
depth) has a lowercased tag that is empty or allow-listed, and never a
removal-selector tag. -/
def tagsOk : List DomNode → Bool
  | [] => true
  | .elem t _ cs :: rest =>
      !dangerousTags.contains (jsToLower t) &&
        (jsToLower t = "" || ALLOWED_READER_TAGS.contains (jsToLower t)) &&
        tagsOk cs && tagsOk rest
  | .text _ :: rest => tagsOk rest
  | .comment _ :: rest => tagsOk rest

/-- No allow-listed reader tag is a removal-selector tag. -/
theorem allowed_tags_not_dangerous :
    ALLOWED_READER_TAGS.all (fun s => !dangerousTags.contains s) = true := by
  decide

/-- A tag that is empty or allow-listed is never a removal-selector tag. -/
theorem not_dangerous_of_tag_ok (s : String)
    (h : s = "" ∨ ALLOWED_READER_TAGS.contains s = true) :
    dangerousTags.contains s = false := by
  rcases h with rfl | h
  · decide
  · have hall := List.all_eq_true.mp allowed_tags_not_dangerous s (List.elem_iff.mp h)
    simpa using hall

/-- `tagsOk` distributes over append. -/
theorem tagsOk_append (a : List DomNode) :
    ∀ b, tagsOk (a ++ b) = (tagsOk a && tagsOk b) := by
  induction a using tagsOk.induct with
  | case1 => intro b; simp [tagsOk]
  | case2 t attrs cs rest ih1 ih2 =>
      intro b
      simp [tagsOk, ih2 b, Bool.and_assoc]
  | case3 s rest ih => intro b; simpa [tagsOk] using ih b
  | case4 s rest ih => intro b; simpa [tagsOk] using ih b

/-- The unwrap pass leaves only allow-listed (or empty-named) tags, hence no
removal-selector tags. -/
theorem tagsOk_unwrapDisallowedList (m : List DomNode) :
    tagsOk (unwrapDisallowedList m) = true := by
  induction m using unwrapDisallowedList.induct with
  | case1 => simp [unwrapDisallowedList, tagsOk]
  | case2 t a cs rest hcond ih1 ih2 =>
      rw [unwrapDisallowedList, if_pos hcond, tagsOk_append, ih1, ih2]
      rfl
  | case3 t a cs rest hcond ih1 ih2 =>
      rw [unwrapDisallowedList, if_neg hcond]
      have hok : jsToLower t = "" ∨ ALLOWED_READER_TAGS.contains (jsToLower t) = true := by
        by_cases he : jsToLower t = ""
        · exact Or.inl he
        · by_cases hc2 : ALLOWED_READER_TAGS.contains (jsToLower t) = true
          · exact Or.inr hc2
          · have hmem : jsToLower t ∉ ALLOWED_READER_TAGS :=
              fun hm => hc2 (List.elem_iff.mpr hm)
            exact absurd (by simp [he, hmem]) hcond
      rw [tagsOk, ih1, ih2, not_dangerous_of_tag_ok _ hok]
      rcases hok with he | hc2
      · simp [he]
      · simp [List.elem_iff.mp hc2]
  | case4 s rest ih => rw [unwrapDisallowedList, tagsOk]; exact ih
  | case5 s rest ih => rw [unwrapDisallowedList, tagsOk]; exact ih

/-- The attribute pass keeps tags intact and leaves every surviving
attribute passing the per-attribute filter. -/
theorem fragmentSanitized_stripAttrsList (m : List DomNode) :
    tagsOk m = true → fragmentSanitized (stripAttrsList m) = true := by
  induction m using stripAttrsList.induct with
  | case1 => intro _; simp [stripAttrsList, fragmentSanitized]
  | case2 t a cs rest ih1 ih2 =>
      intro h
      simp only [tagsOk, Bool.and_eq_true] at h
      obtain ⟨⟨⟨hd, ht⟩, hcs⟩, hrest⟩ := h
      simp only [stripAttrsList, fragmentSanitized, Bool.and_eq_true]
      refine ⟨⟨⟨⟨hd, ht⟩, ?_⟩, ih1 hcs⟩, ih2 hrest⟩
      exact List.all_eq_true.mpr fun p hp => (List.mem_filter.mp hp).2
  | case3 s rest ih =>
      intro h
      rw [tagsOk] at h
      rw [stripAttrsList, fragmentSanitized]
      exact ih h
  | case4 s rest ih =>
      intro h
      rw [tagsOk] at h
      rw [stripAttrsList, fragmentSanitized]
      exact ih h

/-- Shared result: the sanitizer's output always satisfies the full output
predicate. -/
theorem sanitize_output_sanitized (fragment : List DomNode) :
    fragmentSanitized (sanitizeReaderHtml fragment) = true :=
  fragmentSanitized_stripAttrsList _
    (tagsOk_unwrapDisallowedList (removeDangerousList fragment))

/-- **C4**.  For every input fragment, the sanitizer's output contains no
element outside the reader tag allow-list (in particular none of the
removed script/style/iframe/object/embed/form/button/input/textarea/select/
link/meta/base elements), no attribute whose lowercased name starts with
`on`, no attribute outside the attribute allow-list, and no
`href`/`src`/`xlink:href` attribute whose trimmed value begins
case-insensitively with the `javascript:` scheme. -/
theorem C4_sanitize_allowlist (fragment : List DomNode) :
    fragmentSanitized (sanitizeReaderHtml fragment) = true :=
  sanitize_output_sanitized fragment

/-- On an already-sanitized fragment the removal pass finds nothing to
remove. -/
theorem removeDangerousList_id (m : List DomNode) :
    fragmentSanitized m = true → removeDangerousList m = m := by
  induction m using removeDangerousList.induct with
  | case1 => intro _; rw [removeDangerousList]
  | case2 t a cs rest hcond ih =>
      intro h
      rw [fragmentSanitized] at h
      simp only [Bool.and_eq_true] at h
      have hb := h.1.1.1.1
      rw [hcond] at hb
      simp at hb
  | case3 t a cs rest hcond ih1 ih2 =>
      intro h
      rw [fragmentSanitized] at h
      simp only [Bool.and_eq_true] at h
      rw [removeDangerousList, if_neg hcond, ih1 h.1.2, ih2 h.2]
  | case4 s rest ih =>
      intro h
      rw [fragmentSanitized] at h
      rw [removeDangerousList, ih h]
  | case5 s rest ih =>
      intro h
      rw [fragmentSanitized] at h
      rw [removeDangerousList, ih h]

/-- On an already-sanitized fragment the unwrap pass finds nothing to
unwrap. -/
theorem unwrapDisallowedList_id (m : List DomNode) :
    fragmentSanitized m = true → unwrapDisallowedList m = m := by
  induction m using unwrapDisallowedList.induct with
  | case1 => intro _; rw [unwrapDisallowedList]
  | case2 t a cs rest hcond ih1 ih2 =>
      intro h
      rw [fragmentSanitized] at h
      simp only [Bool.and_eq_true] at h
      simp only [Bool.and_eq_true] at hcond
      obtain ⟨hne, hnc⟩ := hcond
      have ht := h.1.1.1.2
      rw [Bool.not_eq_true'] at hnc
      simp [of_decide_eq_true hne, hnc] at ht
      simp at hnc
      exact absurd ht hnc
  | case3 t a cs rest hcond ih1 ih2 =>
      intro h
      rw [fragmentSanitized] at h
      simp only [Bool.and_eq_true] at h
      rw [unwrapDisallowedList, if_neg hcond, ih1 h.1.2, ih2 h.2]
  | case4 s rest ih =>
      intro h
      rw [fragmentSanitized] at h
      rw [unwrapDisallowedList, ih h]
  | case5 s rest ih =>
      intro h
      rw [fragmentSanitized] at h
      rw [unwrapDisallowedList, ih h]

/-- On an already-sanitized fragment the attribute pass drops nothing. -/
theorem stripAttrsList_id (m : List DomNode) :
    fragmentSanitized m = true → stripAttrsList m = m := by
  induction m using stripAttrsList.induct with
  | case1 => intro _; rw [stripAttrsList]
  | case2 t a cs rest ih1 ih2 =>
      intro h
      rw [fragmentSanitized] at h
      simp only [Bool.and_eq_true] at h
      rw [stripAttrsList, ih1 h.1.2, ih2 h.2,
        List.filter_eq_self.mpr fun p hp => List.all_eq_true.mp h.1.1.2 p hp]
  | case3 s rest ih =>
      intro h
      rw [fragmentSanitized] at h
      rw [stripAttrsList, ih h]
  | case4 s rest ih =>
      intro h
      rw [fragmentSanitized] at h
      rw [stripAttrsList, ih h]

/-- **C8**.  `sanitizeReaderHtml` is idempotent: a second pass removes no
further element, unwraps no further tag and strips no further attribute. -/
theorem C8_sanitize_idempotent (fragment : List DomNode) :
    sanitizeReaderHtml (sanitizeReaderHtml fragment) = sanitizeReaderHtml fragment := by
  have hs := sanitize_output_sanitized fragment
  calc sanitizeReaderHtml (sanitizeReaderHtml fragment)
      = stripAttrsList (unwrapDisallowedList
          (removeDangerousList (sanitizeReaderHtml fragment))) := rfl
    _ = stripAttrsList (unwrapDisallowedList (sanitizeReaderHtml fragment)) := by
          rw [removeDangerousList_id _ hs]
    _ = stripAttrsList (sanitizeReaderHtml fragment) := by
          rw [unwrapDisallowedList_id _ hs]
    _ = sanitizeReaderHtml fragment := stripAttrsList_id _ hs

/-! ## Claim C6 -/

/-- A string whose first character differs from `p`'s first character does
not start with `p`. -/
theorem jsStartsWith_ne_head (s p : String) (c d : Char) (ls lp : List Char)
    (hs : s.toList = c :: ls) (hp : p.toList = d :: lp) (hne : d ≠ c) :
    jsStartsWith s p = false := by
  unfold jsStartsWith
  rw [hs, hp]
  simp [List.isPrefixOf, hne]

/-- Decomposition of a `//` prefix. -/
theorem startsWith_slashes (s : String) (h : jsStartsWith s "//" = true) :
    ∃ r, s.toList = '/' :: '/' :: r := by
  obtain ⟨t, ht⟩ := List.isPrefixOf_iff_prefix.mp h
  exact ⟨t, ht.symm⟩

/-- `jsToLower` acts on the underlying character list. -/
theorem jsToLower_toList (s : String) :
    (jsToLower s).toList = s.toList.map Char.toLower := rfl

/-- **C6**.  `toAbsoluteUrl` returns null when the trimmed value is empty,
starts with `#`, or case-insensitively starts with `mailto:`, `tel:` or
`javascript:`; it returns null for every value carrying a scheme other than
`http`/`https` (e.g. `ftp://…`, `javascript:alert(1)`, `mailto:a@b.com`); a
value starting with `//` is returned with the `https:` scheme prepended;
and any other value is resolved relative to the base by the URL
constructor. -/
theorem C6_toAbsoluteUrl_rules (resolve : String → String → Option String)
    (base value : String) :
    (jsTrim value = "" → toAbsoluteUrl resolve base value = .ok none) ∧
    (jsStartsWith (jsTrim value) "#" = true →
      toAbsoluteUrl resolve base value = .ok none) ∧
    (jsStartsWith (jsToLower (jsTrim value)) "mailto:" = true →
      toAbsoluteUrl resolve base value = .ok none) ∧
    (jsStartsWith (jsToLower (jsTrim value)) "tel:" = true →
      toAbsoluteUrl resolve base value = .ok none) ∧
    (jsStartsWith (jsToLower (jsTrim value)) "javascript:" = true →
      toAbsoluteUrl resolve base value = .ok none) ∧
    (hasScheme (jsTrim value) = true →
      jsStartsWith (jsTrim value) "http:" = false →
      jsStartsWith (jsTrim value) "https:" = false →
      toAbsoluteUrl resolve base value = .ok none) ∧
    (jsStartsWith (jsTrim value) "//" = true →
      toAbsoluteUrl resolve base value = .ok (some ("https:" ++ jsTrim value))) ∧
    (∀ u, jsTrim value ≠ "" →
      jsStartsWith (jsTrim value) "#" = false →
      jsStartsWith (jsToLower (jsTrim value)) "mailto:" = false →
      jsStartsWith (jsToLower (jsTrim value)) "tel:" = false →
      jsStartsWith (jsToLower (jsTrim value)) "javascript:" = false →
      jsStartsWith (jsTrim value) "//" = false →
      (hasScheme (jsTrim value) && !jsStartsWith (jsTrim value) "http:" &&
        !jsStartsWith (jsTrim value) "https:") = false →
      resolve (jsTrim value) base = some u →
      toAbsoluteUrl resolve base value = .ok (some u)) := by
  refine ⟨?_, ?_, ?_, ?_, ?_, ?_, ?_, ?_⟩
  · intro h
    simp only [toAbsoluteUrl]
    rw [if_pos h]
  · intro h
    have hne : ¬(jsTrim value = "") := by
      intro he
      rw [he] at h
      exact absurd h (by decide)
    simp only [toAbsoluteUrl]
    rw [if_neg hne, if_pos (by simp [h])]
  · intro h
    have hne : ¬(jsTrim value = "") := by
      intro he
      rw [he] at h
      exact absurd h (by decide)
    simp only [toAbsoluteUrl]
    rw [if_neg hne, if_pos (by simp [h])]
  · intro h
    have hne : ¬(jsTrim value = "") := by
      intro he
      rw [he] at h
      exact absurd h (by decide)
    simp only [toAbsoluteUrl]
    rw [if_neg hne, if_pos (by simp [h])]
  · intro h
    have hne : ¬(jsTrim value = "") := by
      intro he
      rw [he] at h
      exact absurd h (by decide)
    simp only [toAbsoluteUrl]
    rw [if_neg hne, if_pos (by simp [h])]
  · intro hs hh hhs
    have hne : ¬(jsTrim value = "") := by
      intro he
      rw [he] at hs
      exact absurd hs (by decide)
    simp only [toAbsoluteUrl]
    rw [if_neg hne]
    by_cases h2 : (jsStartsWith (jsTrim value) "#" ||
        jsStartsWith (jsToLower (jsTrim value)) "mailto:" ||
        jsStartsWith (jsToLower (jsTrim value)) "tel:" ||
        jsStartsWith (jsToLower (jsTrim value)) "javascript:") = true
    · rw [if_pos h2]
    · rw [if_neg h2]
      have hslash : jsStartsWith (jsTrim value) "//" = false := by
        cases hl : (jsTrim value).toList with
        | nil =>
            unfold jsStartsWith
            rw [hl]
            decide
        | cons c cs =>
            unfold hasScheme at hs
            rw [hl] at hs
            have halpha : c.isAlpha = true := (Bool.and_eq_true _ _ ▸ hs).1
            refine jsStartsWith_ne_head _ _ c '/' cs ['/'] hl rfl ?_
            intro he
            rw [← he] at halpha
            exact absurd halpha (by decide)
      rw [if_neg (by simp [hslash]), if_pos (by simp [hs, hh, hhs])]
  · intro hp
    obtain ⟨r, hr⟩ := startsWith_slashes _ hp
    have hne : ¬(jsTrim value = "") := by
      intro he
      rw [he] at hr
      exact absurd hr (by simp [String.toList])
    have hlow : (jsToLower (jsTrim value)).toList = '/' :: '/' :: r.map Char.toLower := by
      rw [jsToLower_toList, hr]
      rfl
    simp only [toAbsoluteUrl]
    rw [if_neg hne]
    rw [if_neg (by
      simp only [Bool.or_eq_true, not_or]
      refine ⟨⟨⟨?_, ?_⟩, ?_⟩, ?_⟩
      · simp [jsStartsWith_ne_head _ _ '/' '#' _ _ hr rfl (by decide)]
      · simp [jsStartsWith_ne_head _ _ '/' 'm' _ _ hlow rfl (by decide)]
      · simp [jsStartsWith_ne_head _ _ '/' 't' _ _ hlow rfl (by decide)]
      · simp [jsStartsWith_ne_head _ _ '/' 'j' _ _ hlow rfl (by decide)])]
    rw [if_pos (by simp [hp])]
  · intro u hne h1 h2 h3 h4 h5 h6 hres
    simp only [toAbsoluteUrl]
    rw [if_neg hne, if_neg (by simp [h1, h2, h3, h4]), if_neg (by simp [h5]),
      if_neg (by simp [h6]), hres]

/-- **C6** (witness): the claim's example inputs, with a URL constructor
that resolves a relative reference against the base by concatenation. -/
theorem C6_witness :
    toAbsoluteUrl (fun r b => some (b ++ r)) "https://example.com/" "" = .ok none ∧
    toAbsoluteUrl (fun r b => some (b ++ r)) "https://example.com/" "#frag" = .ok none ∧
    toAbsoluteUrl (fun r b => some (b ++ r)) "https://example.com/" "mailto:a@b.com" = .ok none ∧
    toAbsoluteUrl (fun r b => some (b ++ r)) "https://example.com/" "tel:+123" = .ok none ∧
    toAbsoluteUrl (fun r b => some (b ++ r)) "https://example.com/" "JavaScript:alert(1)" = .ok none ∧
    toAbsoluteUrl (fun r b => some (b ++ r)) "https://example.com/" "ftp://files.example.com/a" = .ok none ∧
    toAbsoluteUrl (fun r b => some (b ++ r)) "https://example.com/" "//cdn.example.com/a.js" =
      .ok (some "https://cdn.example.com/a.js") ∧
    toAbsoluteUrl (fun r b => some (b ++ r)) "https://example.com/" "img/a.png" =
      .ok (some "https://example.com/img/a.png") := by
  refine ⟨(C6_toAbsoluteUrl_rules _ _ _).1 rfl,
    (C6_toAbsoluteUrl_rules _ _ _).2.1 (by decide),
    (C6_toAbsoluteUrl_rules _ _ _).2.2.1 (by decide),
    (C6_toAbsoluteUrl_rules _ _ _).2.2.2.1 (by decide),
    (C6_toAbsoluteUrl_rules _ _ _).2.2.2.2.1 (by decide),
    (C6_toAbsoluteUrl_rules _ _ _).2.2.2.2.2.1 (by decide) (by decide) (by decide),
    ?_, ?_⟩
  · have := (C6_toAbsoluteUrl_rules (fun r b => some (b ++ r))
      "https://example.com/" "//cdn.example.com/a.js").2.2.2.2.2.2.1 (by decide)
    simpa using this
  · exact (C6_toAbsoluteUrl_rules _ _ _).2.2.2.2.2.2.2 _ (by decide) (by decide)
      (by decide) (by decide) (by decide) (by decide) (by decide) rfl

/-! ## Claim C5 -/

/-- Concatenation of `String.mk` values. -/
theorem mk_append_mk (a b : List Char) :
    String.mk a ++ String.mk b = String.mk (a ++ b) := rfl

/-- A concatenation whose left part is non-empty is non-empty. -/
theorem append_left_ne_empty (s t : String) (h : s ≠ "") : s ++ t ≠ "" := by
  obtain ⟨a⟩ := s
  obtain ⟨b⟩ := t
  rw [mk_append_mk]
  intro hc
  have hd : a ++ b = [] := congrArg String.data hc
  obtain ⟨ha, _⟩ := List.append_eq_nil.mp hd
  exact h (by rw [ha])

/-- A `''`-join whose first entry is non-empty is non-empty. -/
theorem jsJoin_cons_ne_empty (x : String) (xs : List String) (h : x ≠ "") :
    jsJoin "" (x :: xs) ≠ "" := by
  cases xs with
  | nil => simpa [jsJoin] using h
  | cons y ys =>
      exact append_left_ne_empty _ _ (append_left_ne_empty _ _ h)

/-- `<p>…</p>` wrappers are never empty. -/
theorem paragraph_wrap_ne_empty (s t : String) : ("<p>" ++ s) ++ t ≠ "" :=
  append_left_ne_empty _ _ (append_left_ne_empty _ _ (by decide))

/-- **C5**.  `extractReaderDocument` always returns a non-empty
`contentHtml`; when no candidate selector matches and the cleaned body
yields no paragraphs it falls back to the first 15,000 characters of the
whitespace-collapsed body text wrapped in a single paragraph, and when the
body text is empty that paragraph carries the literal placeholder
`'No se pudo extraer contenido legible.'`. -/
theorem C5_extract_nonempty_fallbacks (doc : List DomNode) (hostname : String) :
    (extractReaderDocument doc hostname).contentHtml ≠ "" ∧
    (readerCandidateMatches doc = [] → readerParagraphs doc = [] →
      (extractReaderDocument doc hostname).contentHtml =
        "<p>" ++ readerFallbackBodyText doc ++ "</p>") ∧
    (readerCandidateMatches doc = [] → readerParagraphs doc = [] →
      jsTrim (collapseWs (bodiesText doc)) = "" →
      (extractReaderDocument doc hostname).contentHtml =
        "<p>No se pudo extraer contenido legible.</p>") := by
  have hfb : ∀ hbt : jsTrim (collapseWs (bodiesText doc)) = "",
      readerFallbackBodyText doc = "No se pudo extraer contenido legible." := by
    intro hbt
    unfold readerFallbackBodyText
    rw [hbt]
    rfl
  refine ⟨?_, ?_, ?_⟩
  · simp only [extractReaderDocument]
    by_cases h1 : readerBestFromSelectors doc = ""
    · rw [if_pos h1]
      by_cases h2 : (readerParagraphs doc).length > 0
      · rw [if_pos h2]
        obtain ⟨p, ps, hps⟩ : ∃ p ps, readerParagraphs doc = p :: ps := by
          cases hps : readerParagraphs doc with
          | nil => rw [hps] at h2; simp at h2
          | cons p ps => exact ⟨p, ps, rfl⟩
        rw [hps]
        have hjoin : jsJoin "" ((p :: ps).map fun q => "<p>" ++ q ++ "</p>") ≠ "" := by
          rw [List.map_cons]
          exact jsJoin_cons_ne_empty _ _ (paragraph_wrap_ne_empty _ _)
        rw [if_neg hjoin]
        exact hjoin
      · rw [if_neg h2]
        rw [if_pos rfl]
        exact paragraph_wrap_ne_empty _ _
    · rw [if_neg h1, if_neg h1]
      exact h1
  · intro hm hp
    have hb1 : readerBestFromSelectors doc = "" := by
      unfold readerBestFromSelectors
      rw [hm]
      rfl
    simp only [extractReaderDocument]
    rw [if_pos hb1, hp]
    simp
  · intro hm hp hbt
    have hb1 : readerBestFromSelectors doc = "" := by
      unfold readerBestFromSelectors
      rw [hm]
      rfl
    simp only [extractReaderDocument]
    rw [if_pos hb1, hp, hfb hbt]
    simp

/-- **C5** (witness): the empty document matches no selector, yields no
paragraphs and has empty body text, so the extractor returns the wrapped
placeholder. -/
theorem C5_witness :
    (extractReaderDocument [] "example.com").contentHtml ≠ "" ∧
    (extractReaderDocument [] "example.com").contentHtml =
      "<p>No se pudo extraer contenido legible.</p>" :=
  ⟨(C5_extract_nonempty_fallbacks [] "example.com").1,
   (C5_extract_nonempty_fallbacks [] "example.com").2.2
     (by simp [readerCandidateMatches, findAll, collectDesc])
     (by simp [readerParagraphs, cleanedBodyContent, bodyElems, findAll, collectDesc,
       removeTagsList])
     (by simp [bodiesText, bodyElems, findAll, collectDesc, textOfList]; decide)⟩

/-! ## Claim C7: token lemmas for `rewriteSrcset` -/

/-- Every group produced by the whitespace splitter is non-empty and free of
whitespace characters. -/
theorem splitWsAux_groups (l : List Char) :
    ∀ acc, (∀ c ∈ acc, c.isWhitespace = false) →
      ∀ g ∈ splitWsAux acc l, g ≠ [] ∧ ∀ c ∈ g, c.isWhitespace = false := by
  induction l with
  | nil =>
      intro acc hacc g hg
      rw [splitWsAux] at hg
      by_cases ha : acc = []
      · rw [if_pos ha] at hg
        simp at hg
      · rw [if_neg ha] at hg
        simp only [List.mem_singleton] at hg
        subst hg
        refine ⟨by simpa using ha, ?_⟩
        intro c hc
        exact hacc c (List.mem_reverse.mp hc)
  | cons c cs ih =>
      intro acc hacc g hg
      rw [splitWsAux] at hg
      by_cases hws : c.isWhitespace
      · rw [if_pos hws] at hg
        by_cases ha : acc = []
        · rw [if_pos ha] at hg
          exact ih [] (by simp) g hg
        · rw [if_neg ha] at hg
          rcases List.mem_cons.mp hg with hg | hg
          · subst hg
            refine ⟨by simpa using ha, ?_⟩
            intro d hd
            exact hacc d (List.mem_reverse.mp hd)
          · exact ih [] (by simp) g hg
      · rw [if_neg hws] at hg
        refine ih (c :: acc) ?_ g hg
        intro d hd
        rcases List.mem_cons.mp hd with rfl | hd
        · exact eq_false_of_ne_true (fun hcc => hws hcc)
        · exact hacc d hd

/-- On an all-whitespace input the splitter only flushes its accumulator. -/
theorem splitWsAux_all_ws (l : List Char) (hl : ∀ c ∈ l, c.isWhitespace = true) :
    ∀ acc, splitWsAux acc l = if acc = [] then [] else [acc.reverse] := by
  induction l with
  | nil => intro acc; rw [splitWsAux]
  | cons c cs ih =>
      intro acc
      have hc : c.isWhitespace = true := hl c (by simp)
      rw [splitWsAux, if_pos hc]
      have hcs : ∀ d ∈ cs, d.isWhitespace = true := fun d hd => hl d (by simp [hd])
      by_cases ha : acc = []
      · rw [if_pos ha, ih hcs, if_pos rfl, if_pos ha]
      · rw [if_neg ha, ih hcs, if_pos rfl, if_neg ha]

/-- Trailing whitespace does not change the split. -/
theorem splitWsAux_append_ws (l t : List Char) (ht : ∀ c ∈ t, c.isWhitespace = true) :
    ∀ acc, splitWsAux acc (l ++ t) = splitWsAux acc l := by
  induction l with
  | nil =>
      intro acc
      rw [List.nil_append, splitWsAux_all_ws t ht acc, splitWsAux]
  | cons c cs ih =>
      intro acc
      rw [List.cons_append, splitWsAux, splitWsAux]
      by_cases hws : c.isWhitespace
      · rw [if_pos hws, if_pos hws]
        by_cases ha : acc = []
        · rw [if_pos ha, if_pos ha, ih]
        · rw [if_neg ha, if_neg ha, ih]
      · rw [if_neg hws, if_neg hws, ih]

/-- Leading whitespace does not change the split (empty accumulator). -/
theorem splitWsAux_dropWhile (l : List Char) :
    splitWsAux [] (l.dropWhile Char.isWhitespace) = splitWsAux [] l := by
  induction l with
  | nil => rfl
  | cons c cs ih =>
      by_cases hws : c.isWhitespace
      · rw [List.dropWhile_cons_of_pos hws, ih, splitWsAux, if_pos hws, if_pos rfl]
      · rw [List.dropWhile_cons_of_neg hws]

/-- Trimming does not change the split (empty accumulator). -/
theorem splitWsAux_trimList (l : List Char) :
    splitWsAux [] (trimList l) = splitWsAux [] l := by
  have hx : l.dropWhile Char.isWhitespace =
      trimList l ++ ((l.dropWhile Char.isWhitespace).reverse.takeWhile
        Char.isWhitespace).reverse := by
    unfold trimList
    conv_lhs => rw [← List.reverse_reverse (l.dropWhile Char.isWhitespace),
      ← List.takeWhile_append_dropWhile
        (p := Char.isWhitespace) (l := (l.dropWhile Char.isWhitespace).reverse)]
    rw [List.reverse_append]
  have hws : ∀ c ∈ ((l.dropWhile Char.isWhitespace).reverse.takeWhile
      Char.isWhitespace).reverse, c.isWhitespace = true := by
    intro c hc
    exact List.mem_takeWhile_imp (List.mem_reverse.mp hc)
  calc splitWsAux [] (trimList l)
      = splitWsAux [] (trimList l ++ ((l.dropWhile Char.isWhitespace).reverse.takeWhile
          Char.isWhitespace).reverse) := (splitWsAux_append_ws _ _ hws []).symm
    _ = splitWsAux [] (l.dropWhile Char.isWhitespace) := by rw [← hx]
    _ = splitWsAux [] l := splitWsAux_dropWhile l

/-- A non-empty accumulator always flushes: the split cannot be empty. -/
theorem splitWsAux_ne_nil (l : List Char) :
    ∀ acc, acc ≠ [] → splitWsAux acc l ≠ [] := by
  induction l with
  | nil =>
      intro acc ha
      rw [splitWsAux, if_neg ha]
      simp
  | cons c cs ih =>
      intro acc ha
      rw [splitWsAux]
      by_cases hws : c.isWhitespace
      · rw [if_pos hws, if_neg ha]
        simp
      · rw [if_neg hws]
        exact ih (c :: acc) (by simp)

/-- An input whose split is empty is all whitespace. -/
theorem all_ws_of_splitWsAux_nil (l : List Char) (h : splitWsAux [] l = []) :
    ∀ c ∈ l, c.isWhitespace = true := by
  induction l with
  | nil => simp
  | cons c cs ih =>
      rw [splitWsAux] at h
      by_cases hws : c.isWhitespace
      · rw [if_pos hws, if_pos rfl] at h
        intro d hd
        rcases List.mem_cons.mp hd with rfl | hd
        · exact hws
        · exact ih h d hd
      · rw [if_neg hws] at h
        exact absurd h (splitWsAux_ne_nil cs [c] (by simp))

/-- The head of a `dropWhile` result fails the predicate. -/
theorem dropWhile_head_false (p : Char → Bool) (l : List Char) (c : Char)
    (r : List Char) (h : l.dropWhile p = c :: r) : p c = false := by
  induction l with
  | nil => simp at h
  | cons a as ih =>
      by_cases hp : p a
      · rw [List.dropWhile_cons_of_pos hp] at h
        exact ih h
      · rw [List.dropWhile_cons_of_neg hp] at h
        cases h
        exact eq_false_of_ne_true hp

/-- A non-empty trimmed string does not split to the empty list. -/
theorem jsSplitWs_trim_ne_nil (e : String) (h : jsTrim e ≠ "") :
    jsSplitWs (jsTrim e) ≠ [] := by
  intro hc
  unfold jsSplitWs at hc
  rw [List.map_eq_nil_iff] at hc
  have htl : (jsTrim e).toList = trimList e.toList := rfl
  rw [htl, splitWsAux_trimList] at hc
  have hall := all_ws_of_splitWsAux_nil _ hc
  have hdrop : e.toList.dropWhile Char.isWhitespace = [] :=
    List.dropWhile_eq_nil_iff.mpr fun c hc2 => hall c hc2
  apply h
  show String.mk (trimList e.toList) = ""
  unfold trimList
  rw [hdrop]
  rfl

/-- Character-list form of `jsJoin " "`. -/
def charJoinSpace : List (List Char) → List Char
  | [] => []
  | [g] => g
  | g :: gs => g ++ ' ' :: charJoinSpace gs

/-- `toList` of a string append. -/
theorem toList_append (s t : String) : (s ++ t).toList = s.toList ++ t.toList := by
  obtain ⟨a⟩ := s
  obtain ⟨b⟩ := t
  rfl

/-- `jsJoin` on a list of two or more entries. -/
theorem jsJoin_cons₂ (sep x y : String) (ys : List String) :
    jsJoin sep (x :: y :: ys) = x ++ sep ++ jsJoin sep (y :: ys) := rfl

/-- `charJoinSpace` on a list of two or more groups. -/
theorem charJoinSpace_cons₂ (g g2 : List Char) (gs : List (List Char)) :
    charJoinSpace (g :: g2 :: gs) = g ++ ' ' :: charJoinSpace (g2 :: gs) := rfl

/-- Mapping `String.mk ∘ String.toList` is the identity. -/
theorem map_mk_toList (xs : List String) :
    xs.map (fun y => String.mk y.toList) = xs := by
  induction xs with
  | nil => rfl
  | cons x xs ih =>
      rw [List.map_cons, ih]
      rfl

/-- `jsJoin " "` on the character level. -/
theorem jsJoin_space_toList (xs : List String) :
    (jsJoin " " xs).toList = charJoinSpace (xs.map String.toList) := by
  induction xs with
  | nil => rfl
  | cons x ys ih =>
      cases ys with
      | nil => rfl
      | cons y ys2 =>
          rw [jsJoin_cons₂, List.map_cons, List.map_cons, charJoinSpace_cons₂,
            toList_append, toList_append, ih, List.map_cons]
          simp

/-- `splitWsAux` consumes a whitespace-free group into its accumulator. -/
theorem splitWsAux_consume (g : List Char) :
    ∀ acc rest, (∀ c ∈ g, c.isWhitespace = false) →
      splitWsAux acc (g ++ rest) = splitWsAux (g.reverse ++ acc) rest := by
  induction g with
  | nil => intro acc rest _; rfl
  | cons c g2 ih =>
      intro acc rest hg
      have hc : c.isWhitespace = false := hg c (by simp)
      rw [List.cons_append, splitWsAux, if_neg (by simp [hc])]
      rw [ih (c :: acc) rest (fun d hd => hg d (by simp [hd]))]
      simp

/-- Splitting the space-join of non-empty whitespace-free groups recovers
exactly the groups. -/
theorem splitWsAux_charJoin (gs : List (List Char))
    (h : ∀ g ∈ gs, g ≠ [] ∧ ∀ c ∈ g, c.isWhitespace = false) :
    splitWsAux [] (charJoinSpace gs) = gs := by
  induction gs with
  | nil => rfl
  | cons g gs2 ih =>
      obtain ⟨hne, hws⟩ := h g (by simp)
      cases gs2 with
      | nil =>
          rw [show charJoinSpace [g] = g from rfl, ← List.append_nil g,
            splitWsAux_consume g [] [] hws, splitWsAux]
          rw [if_neg (by simp [hne])]
          simp
      | cons g2 gs3 =>
          rw [charJoinSpace_cons₂,
            splitWsAux_consume g [] (' ' :: charJoinSpace (g2 :: gs3)) hws,
            splitWsAux, if_pos (by decide), if_neg (by simp [hne])]
          rw [ih fun g3 hg3 => h g3 (by simp [hg3])]
          simp

/-- The trimmed space-join of non-empty whitespace-free tokens splits back
to exactly those tokens. -/
theorem jsSplitWs_trim_join (x : String) (xs : List String)
    (hx : x ≠ "" ∧ ∀ c ∈ x.toList, c.isWhitespace = false)
    (hxs : ∀ y ∈ xs, y ≠ "" ∧ ∀ c ∈ y.toList, c.isWhitespace = false) :
    jsSplitWs (jsTrim (jsJoin " " (x :: xs))) = x :: xs := by
  have hgs : ∀ g ∈ (x :: xs).map String.toList,
      g ≠ [] ∧ ∀ c ∈ g, c.isWhitespace = false := by
    intro g hg
    rw [List.mem_map] at hg
    obtain ⟨y, hy, rfl⟩ := hg
    rcases List.mem_cons.mp hy with rfl | hy2
    · exact ⟨fun hc => hx.1 (by obtain ⟨a⟩ := y; exact congrArg String.mk hc), hx.2⟩
    · obtain ⟨h1, h2⟩ := hxs y hy2
      exact ⟨fun hc => h1 (by obtain ⟨a⟩ := y; exact congrArg String.mk hc), h2⟩
  unfold jsSplitWs
  have htl : (jsTrim (jsJoin " " (x :: xs))).toList =
      trimList ((jsJoin " " (x :: xs)).toList) := rfl
  rw [htl, splitWsAux_trimList, jsJoin_space_toList, splitWsAux_charJoin _ hgs,
    List.map_map]
  exact map_mk_toList _

/-- Unreserved URI characters are not whitespace. -/
theorem isUriUnreserved_not_ws (c : Char) (h : isUriUnreserved c = true) :
    c.isWhitespace = false := by
  by_cases hw : c.isWhitespace = true
  · exfalso
    simp [Char.isWhitespace] at hw
    rcases hw with ((rfl | rfl) | rfl) | rfl <;> exact absurd h (by decide)
  · exact eq_false_of_ne_true hw

/-- The UTF-8 encoder only emits bytes. -/
theorem utf8Bytes_lt_256 (c : Char) : ∀ b ∈ utf8Bytes c, b < 256 := by
  intro b hb
  have hval : c.toNat < 1114112 := by
    rcases (show c.toNat < 0xd800 ∨ (0xdfff < c.toNat ∧ c.toNat < 0x110000) from c.valid)
      with h | ⟨_, h2⟩
    · exact Nat.lt_trans h (by norm_num)
    · exact h2
  simp only [utf8Bytes] at hb
  split_ifs at hb with h1 h2 h3
  · simp at hb
    omega
  · simp at hb
    rcases hb with rfl | rfl <;> omega
  · simp at hb
    rcases hb with rfl | rfl | rfl <;> omega
  · simp at hb
    rcases hb with rfl | rfl | rfl | rfl <;> omega

/-- Hexadecimal digits are not whitespace. -/
theorem hexOfNat_not_ws (n : Nat) (h : n < 16) : (hexOfNat n).isWhitespace = false := by
  interval_cases n <;> decide

/-- The percent-encoding block emits no whitespace. -/
theorem encBytes_no_ws (bs : List Nat) (hb : ∀ b ∈ bs, b < 256) :
    ∀ c ∈ bs.foldr
      (fun b acc2 => '%' :: hexOfNat (b / 16) :: hexOfNat (b % 16) :: acc2) [],
      c.isWhitespace = false := by
  induction bs with
  | nil => simp
  | cons b bs ih =>
      intro c hc
      simp only [List.foldr_cons, List.mem_cons] at hc
      rcases hc with rfl | rfl | rfl | hc
      · decide
      · exact hexOfNat_not_ws _ (by have := hb b (by simp); omega)
      · exact hexOfNat_not_ws _ (by have := hb b (by simp); omega)
      · exact ih (fun b2 h2 => hb b2 (by simp [h2])) c hc

/-- The character-level encoder fold emits no whitespace. -/
theorem encFoldr_no_ws (l : List Char) :
    ∀ c ∈ l.foldr
      (fun c acc =>
        (if isUriUnreserved c then [c]
         else (utf8Bytes c).foldr
           (fun b acc2 => '%' :: hexOfNat (b / 16) :: hexOfNat (b % 16) :: acc2) []) ++
          acc)
      [], c.isWhitespace = false := by
  induction l with
  | nil => simp
  | cons a l ih =>
      intro c hc
      simp only [List.foldr_cons, List.mem_append] at hc
      rcases hc with hc | hc
      · by_cases hu : isUriUnreserved a
        · rw [if_pos hu] at hc
          simp only [List.mem_singleton] at hc
          subst hc
          exact isUriUnreserved_not_ws _ hu
        · rw [if_neg hu] at hc
          exact encBytes_no_ws _ (utf8Bytes_lt_256 a) c hc
      · exact ih c hc

/-- `encodeURIComponent` output carries no whitespace. -/
theorem encodeURIComponent_no_ws (s : String) :
    ∀ c ∈ (encodeURIComponent s).toList, c.isWhitespace = false :=
  encFoldr_no_ws s.toList

/-- A proxy URL is a non-empty whitespace-free token. -/
theorem toProxyUrl_tok (a : String) :
    toProxyUrl a ≠ "" ∧ ∀ c ∈ (toProxyUrl a).toList, c.isWhitespace = false := by
  have hpre : ∀ c ∈ "/api/proxy?url=".toList, c.isWhitespace = false := by decide
  refine ⟨append_left_ne_empty _ _ (by decide), ?_⟩
  intro c hc
  rw [show (toProxyUrl a).toList =
    "/api/proxy?url=".toList ++ (encodeURIComponent a).toList from
    toList_append _ _] at hc
  rcases List.mem_append.mp hc with hc | hc
  · exact hpre c hc
  · exact encodeURIComponent_no_ws a c hc

/-- Tokens of `jsSplitWs` are non-empty and whitespace-free. -/
theorem jsSplitWs_tok_of_mem (s t : String) (ht : t ∈ jsSplitWs s) :
    t ≠ "" ∧ ∀ c ∈ t.toList, c.isWhitespace = false := by
  unfold jsSplitWs at ht
  rw [List.mem_map] at ht
  obtain ⟨g, hg, rfl⟩ := ht
  obtain ⟨h1, h2⟩ := splitWsAux_groups _ [] (by simp) g hg
  exact ⟨fun hc => h1 (congrArg String.data hc), h2⟩

/-- The rewritten form of one successful srcset candidate: on an all-blank
candidate the entry passes through; otherwise the output re-splits into the
(possibly proxied) URL token followed by the original descriptors. -/
theorem srcsetEntry_ok_spec (resolve : String → String → Option String)
    (base entry out : String)
    (h : srcsetEntryRewrite resolve base entry = .ok out) :
    (jsTrim entry = "" → out = jsTrim entry) ∧
    (jsTrim entry ≠ "" →
      ∃ u rest abs, jsSplitWs (jsTrim entry) = u :: rest ∧
        toAbsoluteUrl resolve base u = .ok abs ∧
        jsSplitWs out =
          (match abs with
           | some a => if a = "" then u else toProxyUrl a
           | none => u) :: rest) := by
  by_cases hp : jsTrim entry = ""
  · refine ⟨fun _ => ?_, fun hne => absurd hp hne⟩
    unfold srcsetEntryRewrite at h
    rw [if_pos hp] at h
    simp only [Except.ok.injEq] at h
    exact h.symm
  · refine ⟨fun he => absurd he hp, fun _ => ?_⟩
    obtain ⟨u, rest, htoks⟩ : ∃ u rest, jsSplitWs (jsTrim entry) = u :: rest := by
      cases hts : jsSplitWs (jsTrim entry) with
      | nil => exact absurd hts (jsSplitWs_trim_ne_nil entry hp)
      | cons u rest => exact ⟨u, rest, rfl⟩
    unfold srcsetEntryRewrite at h
    rw [if_neg hp] at h
    simp only [htoks, List.headD_cons, List.tail_cons] at h
    cases habs : toAbsoluteUrl resolve base u with
    | error e =>
        rw [habs] at h
        cases e
        simp at h
    | ok abs =>
        rw [habs] at h
        simp only [Except.ok.injEq] at h
        refine ⟨u, rest, abs, htoks, habs, ?_⟩
        rw [← h]
        have hu := jsSplitWs_tok_of_mem (jsTrim entry) u (by rw [htoks]; simp)
        have hrest : ∀ y ∈ rest, y ≠ "" ∧ ∀ c ∈ y.toList, c.isWhitespace = false :=
          fun y hy => jsSplitWs_tok_of_mem (jsTrim entry) y (by rw [htoks]; simp [hy])
        cases abs with
        | none => exact jsSplitWs_trim_join u rest hu hrest
        | some a =>
            by_cases ha : a = ""
            · simp only [ha, if_pos rfl]
              exact jsSplitWs_trim_join u rest hu hrest
            · simp only [if_neg ha]
              exact jsSplitWs_trim_join (toProxyUrl a) rest (toProxyUrl_tok a) hrest

/-- A successful `mapExcept` relates inputs and outputs pointwise. -/
theorem mapExcept_ok_forall₂ {α β : Type} (f : α → Except Unit β) (l : List α) :
    ∀ out, mapExcept f l = .ok out →
      List.Forall₂ (fun a b => f a = .ok b) l out := by
  induction l with
  | nil =>
      intro out h
      rw [mapExcept] at h
      simp only [Except.ok.injEq] at h
      subst h
      exact List.Forall₂.nil
  | cons x xs ih =>
      intro out h
      rw [mapExcept] at h
      cases hf : f x with
      | error e =>
          rw [hf] at h
          simp at h
      | ok y =>
          rw [hf] at h
          cases hm : mapExcept f xs with
          | error e =>
              rw [hm] at h
              simp [Except.map] at h
          | ok ys =>
              rw [hm] at h
              simp only [Except.map, Except.ok.injEq] at h
              subst h
              exact List.Forall₂.cons hf (ih ys hm)

/-- **C7**.  When `rewriteSrcset` succeeds, it returns the per-candidate
rewrites of the comma-split entries rejoined with `', '`; the number of
candidates is preserved; and each non-blank candidate's output re-splits
into a URL token followed by exactly the original width/density
descriptors, where the URL token is the proxy URL of the resolved absolute
URL when resolution yields a non-empty result and the original URL token
unchanged when resolution returns null (or the empty string). -/
theorem C7_rewriteSrcset_shape (resolve : String → String → Option String)
    (base srcset : String) (outs : List String)
    (h : mapExcept (srcsetEntryRewrite resolve base) (jsSplitComma srcset) = .ok outs) :
    rewriteSrcset resolve base srcset = .ok (jsJoin ", " outs) ∧
    outs.length = (jsSplitComma srcset).length ∧
    List.Forall₂ (fun entry out =>
      (jsTrim entry = "" → out = jsTrim entry) ∧
      (jsTrim entry ≠ "" →
        ∃ u rest abs, jsSplitWs (jsTrim entry) = u :: rest ∧
          toAbsoluteUrl resolve base u = .ok abs ∧
          jsSplitWs out =
            (match abs with
             | some a => if a = "" then u else toProxyUrl a
             | none => u) :: rest))
      (jsSplitComma srcset) outs := by
  refine ⟨?_, ?_, ?_⟩
  · unfold rewriteSrcset
    rw [h]
    rfl
  · exact (mapExcept_ok_forall₂ _ _ _ h).length_eq.symm
  · exact (mapExcept_ok_forall₂ _ _ _ h).imp
      (fun a b hab => srcsetEntry_ok_spec resolve base a b hab)

/-- **C7** (witness): `rewriteSrcset(base, "a.jpg 1x, b.jpg 2x")` yields two
candidates, each a proxy URL followed by its original descriptor, rejoined
with `', '`. -/
theorem C7_witness :
    rewriteSrcset (fun r b => some (b ++ r)) "https://e.com/" "a.jpg 1x, b.jpg 2x" =
      .ok (jsJoin ", "
        ["/api/proxy?url=https%3A%2F%2Fe.com%2Fa.jpg 1x",
         "/api/proxy?url=https%3A%2F%2Fe.com%2Fb.jpg 2x"]) ∧
    (["/api/proxy?url=https%3A%2F%2Fe.com%2Fa.jpg 1x",
      "/api/proxy?url=https%3A%2F%2Fe.com%2Fb.jpg 2x"] : List String).length =
      (jsSplitComma "a.jpg 1x, b.jpg 2x").length :=
  ⟨(C7_rewriteSrcset_shape (fun r b => some (b ++ r)) "https://e.com/"
      "a.jpg 1x, b.jpg 2x" _ rfl).1,
   (C7_rewriteSrcset_shape (fun r b => some (b ++ r)) "https://e.com/"
      "a.jpg 1x, b.jpg 2x" _ rfl).2.1⟩
